import Mathlib

/-!
Verification development for the pixidb storage engine.

The definitions below are shallow embeddings of the Go source: byte slices
become `List Nat` (each element < 256), machine integers become `Nat`/`Int`
with explicit truncation, Go maps become association lists, the data file
becomes a function from page index to an optional byte record, and fallible
operations return `Except`/`Option`.
-/

set_option autoImplicit false

namespace Pixidb

/-! ### CRC-32 (IEEE), as computed by Go `hash/crc32.ChecksumIEEE`.

`ChecksumIEEE` processes each byte LSB-first against the reversed
polynomial `0xEDB88320`, starting from `0xFFFFFFFF` and xoring the result
with `0xFFFFFFFF` at the end.  `crcStep` is one bit-step of that loop,
written with `/ 2` and `% 2` for the shift and low-bit test. -/

def crcPoly : Nat := 0xEDB88320

def crcStep (c : Nat) : Nat :=
  if c % 2 = 1 then (c / 2) ^^^ crcPoly else c / 2

/-- Explicit inverse of `crcStep` on 32-bit values. -/
def crcStepInv (d : Nat) : Nat :=
  if d.testBit 31 then 2 * (d ^^^ crcPoly) + 1 else 2 * d

/-- Per-byte update of the running CRC: xor the byte in, then run eight
bit-steps. -/
def crcByte (c b : Nat) : Nat := crcStep^[8] (c ^^^ b)

/-- CRC-32/IEEE checksum of a byte sequence. -/
def crc32 (data : List Nat) : Nat :=
  (data.foldl crcByte 0xFFFFFFFF) ^^^ 0xFFFFFFFF

/-! ### Big-endian byte encoding, as in Go `encoding/binary.BigEndian`.

`byte(x)` truncation is modelled by `% 256`.  The Go getters panic on
slices shorter than the width; every call site in the embedded code passes
a slice of exactly the right length, and the fallback result `0` is never
reached by those calls. -/

def beBytes16 (n : Nat) : List Nat := [n / 2 ^ 8 % 256, n % 256]

def beUint16 : List Nat → Nat
  | a :: b :: _ => a * 256 + b
  | _ => 0

def beBytes32 (n : Nat) : List Nat :=
  [n / 2 ^ 24 % 256, n / 2 ^ 16 % 256, n / 2 ^ 8 % 256, n % 256]

def beUint32 : List Nat → Nat
  | a :: b :: c :: d :: _ => ((a * 256 + b) * 256 + c) * 256 + d
  | _ => 0

def beBytes64 (n : Nat) : List Nat :=
  [n / 2 ^ 56 % 256, n / 2 ^ 48 % 256, n / 2 ^ 40 % 256, n / 2 ^ 32 % 256,
   n / 2 ^ 24 % 256, n / 2 ^ 16 % 256, n / 2 ^ 8 % 256, n % 256]

def beUint64 : List Nat → Nat
  | a :: b :: c :: d :: e :: f :: g :: h :: _ =>
      ((((((a * 256 + b) * 256 + c) * 256 + d) * 256 + e) * 256 + f) * 256
        + g) * 256 + h
  | _ => 0

/-! ### Values (`Value`, `NewKValue`, `AsK`).

A `Value` is a byte slice.  Signed integers are converted to and from
their width-`w` two's-complement bit patterns (`uintN(val)` conversion in
Go is `twosComp`, `intN` reinterpretation is `fromTwosComp`).  Go's
`math.Float32bits`/`Float32frombits` (and the 64-bit pair) are bit-pattern
identities, so the float values are embedded as their IEEE-754 bit
patterns, which is exactly how the round-trip claim compares them. -/

def Value := List Nat

/-- Go conversion `uintW(v)` of a signed value: the value mod `2^w`. -/
def twosComp (w : Nat) (v : Int) : Nat := (v % ((2 : Int) ^ w)).toNat

/-- Go reinterpretation `intW(u)` of a width-`w` bit pattern. -/
def fromTwosComp (w : Nat) (u : Nat) : Int :=
  if u < 2 ^ (w - 1) then (u : Int) else (u : Int) - 2 ^ w

def NewInt8Value (v : Int) : Value := [twosComp 8 v]

def NewUint8Value (v : Nat) : Value := [v % 256]

def NewInt16Value (v : Int) : Value := beBytes16 (twosComp 16 v)

def NewUint16Value (v : Nat) : Value := beBytes16 v

def NewInt32Value (v : Int) : Value := beBytes32 (twosComp 32 v)

def NewUint32Value (v : Nat) : Value := beBytes32 v

def NewInt64Value (v : Int) : Value := beBytes64 (twosComp 64 v)

def NewUint64Value (v : Nat) : Value := beBytes64 v

/-- `NewFloat32Value` stores `math.Float32bits val` big-endian; the
argument here is that bit pattern. -/
def NewFloat32Value (bits : Nat) : Value := beBytes32 bits

/-- `NewFloat64Value` stores `math.Float64bits val` big-endian; the
argument here is that bit pattern. -/
def NewFloat64Value (bits : Nat) : Value := beBytes64 bits

def Value.AsInt8 (v : Value) : Int := fromTwosComp 8 (v.headD 0)

def Value.AsUint8 (v : Value) : Nat := v.headD 0

def Value.AsInt16 (v : Value) : Int := fromTwosComp 16 (beUint16 v)

def Value.AsUint16 (v : Value) : Nat := beUint16 v

def Value.AsInt32 (v : Value) : Int := fromTwosComp 32 (beUint32 v)

def Value.AsUint32 (v : Value) : Nat := beUint32 v

def Value.AsInt64 (v : Value) : Int := fromTwosComp 64 (beUint64 v)

def Value.AsUint64 (v : Value) : Nat := beUint64 v

/-- `AsFloat32` is `math.Float32frombits` of the decoded `uint32`; we
return the bit pattern. -/
def Value.AsFloat32Bits (v : Value) : Nat := beUint32 v

/-- `AsFloat64` is `math.Float64frombits` of the decoded `uint64`; we
return the bit pattern. -/
def Value.AsFloat64Bits (v : Value) : Nat := beUint64 v

/-! ### Pagemaster: file-backed paged cache with per-page CRC-32.

The cache (a Go map from page index to `*Page`) is an association list
with unique keys; `maps.Keys(p.cache)[0]`, whose order Go does not
specify, is resolved to the first entry of the list.  The data file is a
function from page index to the optional raw record (checksum bytes
followed by payload) stored at that page's slot; disk writes always
succeed in the model, which realizes the success paths the claims are
about. -/

/-- 4 bytes for the int32 checksum in each page. -/
def ChecksumSize : Nat := 4

/-- `MaxPagesInCache` from the store constants. -/
def MaxPagesInCache : Nat := 64

structure Page where
  data  : List Nat
  dirty : Bool
  deriving DecidableEq

structure Pagemaster where
  maxCache : Nat
  pageSize : Nat
  cache    : List (Nat × Page)
  disk     : Nat → Option (List Nat)

inductive PMError where
  | ioError
  | corruptedPage
  deriving DecidableEq

/-- Go map assignment `p.cache[i] = pg`: replace the entry if present,
otherwise add it. -/
def cacheSet (cache : List (Nat × Page)) (i : Nat) (pg : Page) :
    List (Nat × Page) :=
  if cache.any (fun e => e.1 == i) then
    cache.map (fun e => if e.1 == i then (i, pg) else e)
  else cache ++ [(i, pg)]

/-- Go `copy(dst[offset:], src)`: overwrite at most
`len(dst) - offset` bytes of `dst` starting at `offset`. -/
def listCopy (dst : List Nat) (offset : Nat) (src : List Nat) : List Nat :=
  dst.take offset ++ src.take (dst.length - offset) ++ dst.drop (offset + src.length)

/-- `writePage` pads a short page with zero bytes up to `pageSize`. -/
def padPage (pageSize : Nat) (page : List Nat) : List Nat :=
  if page.length < pageSize then
    page ++ List.replicate (pageSize - page.length) 0
  else page

/-- `Pagemaster.writePage` / `openAndWritePage`: store the big-endian
CRC-32 of the padded payload followed by the padded payload at the page's
slot in the file. -/
def Pagemaster.writePage (s : Pagemaster) (i : Nat) (page : List Nat) :
    Pagemaster :=
  let padded := padPage s.pageSize page
  let record := beBytes32 (crc32 padded) ++ padded
  { s with disk := fun j => if j = i then some record else s.disk j }

/-- `Pagemaster.readPage`: read the page's record from the file (a short
or absent record is an I/O read error, as `ReadAt` fails when fewer bytes
are available), then compare the stored big-endian checksum against a
freshly computed CRC-32 of the payload. -/
def Pagemaster.readPage (s : Pagemaster) (i : Nat) :
    Except PMError (List Nat) :=
  match s.disk i with
  | none => .error .ioError
  | some record =>
      if record.length ≠ s.pageSize + ChecksumSize then .error .ioError
      else if beUint32 record = crc32 (record.drop ChecksumSize) then
        .ok (record.drop ChecksumSize)
      else .error .corruptedPage

/-- `Pagemaster.loadPage` (private): return the cached page if present;
otherwise read it from disk, evict the first cache entry (writing it back
unconditionally) when `len(cache) > maxCache`, and insert the page clean. -/
def Pagemaster.loadPage (s : Pagemaster) (i : Nat) :
    Except PMError (Pagemaster × Page) :=
  match List.lookup i s.cache with
  | some pg => .ok (s, pg)
  | none =>
      match s.readPage i with
      | .error e => .error e
      | .ok pageData =>
          let s1 :=
            if s.maxCache < s.cache.length then
              match s.cache with
              | [] => s
              | e :: rest => { s.writePage e.1 e.2.data with cache := rest }
            else s
          let newPage : Page := ⟨pageData, false⟩
          .ok ({ s1 with cache := cacheSet s1.cache i newPage }, newPage)

/-- `Pagemaster.LoadPage`: public wrapper around `loadPage` returning the
page bytes. -/
def Pagemaster.LoadPageM (s : Pagemaster) (i : Nat) :
    Except PMError (Pagemaster × List Nat) :=
  match s.loadPage i with
  | .error e => .error e
  | .ok (s', pg) => .ok (s', pg.data)

/-- `Pagemaster.getPage` (private): cache hit avoids the disk, miss loads. -/
def Pagemaster.getPage (s : Pagemaster) (i : Nat) :
    Except PMError (Pagemaster × Page) :=
  match List.lookup i s.cache with
  | some pg => .ok (s, pg)
  | none => s.loadPage i

/-- `Pagemaster.GetPage`: public wrapper returning the page bytes. -/
def Pagemaster.GetPageM (s : Pagemaster) (i : Nat) :
    Except PMError (Pagemaster × List Nat) :=
  match s.getPage i with
  | .error e => .error e
  | .ok (s', pg) => .ok (s', pg.data)

/-- `Pagemaster.GetChunk`: a slice `page[offset : offset+size]` of the
page data (call sites keep the slice inside the page). -/
def Pagemaster.GetChunk (s : Pagemaster) (i offset size : Nat) :
    Except PMError (Pagemaster × List Nat) :=
  match s.GetPageM i with
  | .error e => .error e
  | .ok (s', page) => .ok (s', (page.drop offset).take size)

/-- `Pagemaster.SetChunk`: load the page if needed, overwrite the chunk in
place, and mark the cache entry dirty. -/
def Pagemaster.SetChunk (s : Pagemaster) (i offset : Nat) (chunk : List Nat) :
    Except PMError Pagemaster :=
  match s.getPage i with
  | .error e => .error e
  | .ok (s', pg) =>
      .ok { s' with cache := cacheSet s'.cache i ⟨listCopy pg.data offset chunk, true⟩ }

/-- `Pagemaster.FlushPage`: no action if the page is not cached; otherwise
write its payload (with recomputed CRC) to the file and then set the cache
entry's dirty flag to `true` — which is what the source does on a
successful write, although its comment says the page is marked clean. -/
def Pagemaster.FlushPage (s : Pagemaster) (i : Nat) : Pagemaster :=
  match List.lookup i s.cache with
  | none => s
  | some pg =>
      let s' := s.writePage i pg.data
      { s' with cache := cacheSet s'.cache i ⟨pg.data, true⟩ }

/-- Replacing the record stored at one page slot of the file. -/
def diskOverride (s : Pagemaster) (p : Nat) (record : List Nat) : Pagemaster :=
  { s with disk := fun q => if q = p then some record else s.disk q }

/-! ### ColumnType, Column and typed encoding.

`ColumnType.EncodeValue` takes a Go `any` value and type-asserts it; a
failed assertion panics, as does an out-of-range slice write, both
modelled by `none`. -/

inductive ColumnType where
  | int8 | uint8 | int16 | uint16 | int32 | uint32
  | int64 | uint64 | float32 | float64
  deriving DecidableEq

def ColumnType.Size : ColumnType → Nat
  | .int8 | .uint8 => 1
  | .int16 | .uint16 => 2
  | .int32 | .uint32 | .float32 => 4
  | .int64 | .uint64 | .float64 => 8

/-- The dynamic (Go `any`) argument of `EncodeValue`; float arguments are
carried as their IEEE-754 bit patterns. -/
inductive GoValue where
  | i8 (v : Int) | u8 (v : Nat) | i16 (v : Int) | u16 (v : Nat)
  | i32 (v : Int) | u32 (v : Nat) | i64 (v : Int) | u64 (v : Nat)
  | f32 (bits : Nat) | f64 (bits : Nat)
  deriving DecidableEq

/-- Go slice element assignment `buf[i] = b`: out of range panics. -/
def listAssign (buf : List Nat) (i b : Nat) : Option (List Nat) :=
  if i < buf.length then some (buf.set i b) else none

/-- `binary.BigEndian.PutUintN(buf, v)`: write the `n` encoded bytes at
the front of `buf`; a shorter buffer panics. -/
def putBE (buf : List Nat) (bytes : List Nat) : Option (List Nat) :=
  if bytes.length ≤ buf.length then some (bytes ++ buf.drop bytes.length)
  else none

/-- `ColumnType.EncodeValue`: allocate a `c.Size()`-byte buffer and write
the value into it.  The `uint8` case writes to index 1 of the 1-byte
buffer, as the source does. -/
def ColumnType.EncodeValue (c : ColumnType) (val : GoValue) : Option Value :=
  let retArr := List.replicate c.Size 0
  match c, val with
  | .int8, .i8 v => listAssign retArr 0 (twosComp 8 v)
  | .uint8, .u8 v => listAssign retArr 1 (v % 256)
  | .int16, .i16 v => putBE retArr (beBytes16 (twosComp 16 v))
  | .uint16, .u16 v => putBE retArr (beBytes16 v)
  | .int32, .i32 v => putBE retArr (beBytes32 (twosComp 32 v))
  | .uint32, .u32 v => putBE retArr (beBytes32 v)
  | .int64, .i64 v => putBE retArr (beBytes64 (twosComp 64 v))
  | .uint64, .u64 v => putBE retArr (beBytes64 v)
  | .float32, .f32 bits => putBE retArr (beBytes32 bits)
  | .float64, .f64 bits => putBE retArr (beBytes64 bits)
  | _, _ => none

structure Column where
  Name : String
  type : ColumnType
  Default : Value

/-- `NewColumnEncoded` panics when the default's length disagrees with
the column type's size. -/
def NewColumnEncoded (name : String) (ctype : ColumnType) (defval : Value) :
    Option Column :=
  if List.length defval = ctype.Size then some ⟨name, ctype, defval⟩ else none

def NewColumnUnencoded (name : String) (ctype : ColumnType) (defval : GoValue) :
    Option Column :=
  match ctype.EncodeValue defval with
  | none => none
  | some v => NewColumnEncoded name ctype v

/-- `NewColumnUint8` builds the default byte slice directly. -/
def NewColumnUint8 (name : String) (defval : Nat) : Option Column :=
  NewColumnEncoded name .uint8 [defval]

def Column.EncodeValue (c : Column) (val : GoValue) : Option Value :=
  c.type.EncodeValue val

def Column.Size (c : Column) : Nat := c.type.Size

/-! ### Locations and indexers.

Go `float64` coordinates are embedded as rationals; the external
`flatsphere` projections (`Project`, `PlanarBounds`) and
`RectangularLocation.ToSpherical` (atan2/sqrt) compute transcendental
functions with no exact embedding, so they appear as uninterpreted
function data (`projectFn`, bounds fields, and the `toSph` argument); the
indexer claims hold for every value of them. -/

inductive Location where
  | index (i : Int)
  | ring (i : Int)
  | nest (i : Int)
  | unique (i : Int)
  | grid (x y : Int)
  | spherical (lat lon : ℚ)
  | projected (x y : ℚ)
  | rectangular (x y z : ℚ)
  deriving DecidableEq

inductive IndexerError where
  | locationNotSupported
  | locationOutOfBounds
  deriving DecidableEq

structure ProjectionlessIndexer where
  Width : Int
  Height : Int
  RowMajor : Bool
  deriving DecidableEq

def ProjectionlessIndexer.Size (p : ProjectionlessIndexer) : Int :=
  p.Width * p.Height

def ProjectionlessIndexer.ToIndex (p : ProjectionlessIndexer) :
    Location → Except IndexerError Int
  | .index i => .ok i
  | .grid x y =>
      if p.RowMajor then .ok (y * p.Width + x) else .ok (x * p.Height + y)
  | _ => .error .locationNotSupported

/-- Go `int(f)` conversion of a float: truncation toward zero. -/
def ratTrunc (q : ℚ) : Int := if 0 ≤ q then ⌊q⌋ else -⌊-q⌋

structure MercatorCutoffIndexer where
  NorthCutoff : ℚ
  SouthCutoff : ℚ
  southProj : ℚ
  latRangeProj : ℚ
  grid : ProjectionlessIndexer
  projectFn : ℚ → ℚ → ℚ × ℚ
  boundsXMin : ℚ
  boundsWidth : ℚ
  boundsYMin : ℚ
  boundsHeight : ℚ

/-- The `ProjectedLocation` arm of `MercatorCutoffIndexer.ToIndex`: scale
the projected point into the grid and delegate to the grid indexer. -/
def MercatorCutoffIndexer.toIndexProjected (m : MercatorCutoffIndexer)
    (x y : ℚ) : Except IndexerError Int :=
  let xPix := ((x - m.boundsXMin) / m.boundsWidth) * ((m.grid.Width : ℚ) - 1)
  let yPix := ((y - m.southProj) / m.latRangeProj) * ((m.grid.Height : ℚ) - 1)
  m.grid.ToIndex (.grid (ratTrunc xPix) (ratTrunc yPix))

/-- The `SphericalLocation` arm of `MercatorCutoffIndexer.ToIndex`:
reject latitudes beyond the cutoffs, otherwise project and continue as a
projected location. -/
def MercatorCutoffIndexer.toIndexSpherical (m : MercatorCutoffIndexer)
    (lat lon : ℚ) : Except IndexerError Int :=
  if lat > m.NorthCutoff ∨ lat < m.SouthCutoff then
    .error .locationOutOfBounds
  else
    let xy := m.projectFn lat lon
    m.toIndexProjected xy.1 xy.2

/-- `MercatorCutoffIndexer.ToIndex`; `toSph` is
`RectangularLocation.ToSpherical`, passed uninterpreted. -/
def MercatorCutoffIndexer.ToIndex (m : MercatorCutoffIndexer)
    (toSph : ℚ → ℚ → ℚ → ℚ × ℚ) : Location → Except IndexerError Int
  | .index i => .ok i
  | .grid x y => m.grid.ToIndex (.grid x y)
  | .spherical lat lon => m.toIndexSpherical lat lon
  | .projected x y => m.toIndexProjected x y
  | .rectangular x y z =>
      m.toIndexSpherical (toSph x y z).1 (toSph x y z).2
  | _ => .error .locationNotSupported

def mercatorExample : MercatorCutoffIndexer :=
  ⟨1, -1, 0, 0, ⟨2, 2, true⟩, fun a b => (a, b), -2, 4, -2, 4⟩

/-! ### Store: a schema bound to a Pagemaster.

File-system concerns (paths, the JSON metadata sidecar) are not modelled;
the store keeps the schema, row geometry and the Pagemaster state. -/

/-- Go map assignment for arbitrary key/value types (replace or add). -/
def assocSet {α β : Type} [BEq α] (m : List (α × β)) (k : α) (v : β) :
    List (α × β) :=
  if m.any (fun e => e.1 == k) then
    m.map (fun e => if e.1 == k then (k, v) else e)
  else m ++ [(k, v)]

structure ColumnProjection where
  index : Nat
  start : Nat
  size : Nat
  deriving DecidableEq

inductive TableError where
  | tableNotFound
  | columnNotFound
  | indexer (e : IndexerError)
  | pm (e : PMError)
  deriving DecidableEq

structure Store where
  ColumnSet : List Column
  Rows : Nat
  file : Pagemaster
  columnMap : List (String × ColumnProjection)
  rowSize : Nat
  rowsPerPage : Nat

/-- The `rowSize += c.Size()` accumulation of `NewStore`/`OpenStore`. -/
def storeRowSize (columns : List Column) : Nat :=
  columns.foldl (fun a c => a + c.Size) 0

/-- The `defaultRow = append(defaultRow, c.Default...)` accumulation. -/
def defaultRowOf (columns : List Column) : List Nat :=
  columns.foldl (fun r c => r ++ c.Default) []

/-- `initColumnMap`: name → (position, byte offset, byte size); duplicate
names follow Go map semantics (last wins). -/
def initColumnMap (columns : List Column) : List (String × ColumnProjection) :=
  (columns.foldl
    (fun acc c =>
      (assocSet acc.1 c.Name ⟨acc.2.1, acc.2.2, c.Size⟩,
        acc.2.1 + 1, acc.2.2 + c.Size))
    (([], 0, 0) : List (String × ColumnProjection) × Nat × Nat)).1

/-- `Pagemaster.Initialize`: write the template page at indices
`0 .. pages-1` of the file. -/
def Pagemaster.Initialize (s : Pagemaster) (pages : Nat) (page : List Nat) :
    Pagemaster :=
  (List.range pages).foldl (fun st i => st.writePage i page) s

/-- `NewStore` over a fresh directory: row size is the sum of the column
sizes, rows per page is `PageSize() / rowSize`, the page count is
`rows/rowsPerPage + 1`, and the data file is initialized with pages full
of default rows.  `pageSize` stands for `os.Getpagesize() - ChecksumSize`. -/
def NewStore (pageSize rows : Nat) (columns : List Column) : Option Store :=
  if columns.length < 1 then none
  else
    let pm0 : Pagemaster := ⟨MaxPagesInCache, pageSize, [], fun _ => none⟩
    let rowSize := storeRowSize columns
    let rowsPerPage := pm0.pageSize / rowSize
    let pages := rows / rowsPerPage + 1
    let defaultRow := defaultRowOf columns
    let defaultPage :=
      (List.range rowsPerPage).foldl (fun p _ => p ++ defaultRow) []
    some ⟨columns, rows, pm0.Initialize pages defaultPage,
      initColumnMap columns, rowSize, rowsPerPage⟩

/-- `Store.GetRowAt`.  Row indices come from indexers as Go ints; a
negative index reaches `ReadAt`/slicing with a negative offset and never
yields a row — modelled as an I/O error, and the table-level theorems only
exercise indexers respecting the documented contract (indices in
`[0, Rows)`). -/
def Store.GetRowAt (st : Store) (index : Int) :
    Except PMError (Store × List Nat) :=
  if index < 0 then .error .ioError
  else
    let i := index.toNat
    match st.file.GetChunk (i / st.rowsPerPage)
        (i % st.rowsPerPage * st.rowSize) st.rowSize with
    | .error e => .error e
    | .ok (pm, row) => .ok ({ st with file := pm }, row)

/-- `Store.SetRowAt`, with the same treatment of negative indices. -/
def Store.SetRowAt (st : Store) (index : Int) (row : List Nat) :
    Except PMError Store :=
  if index < 0 then .error .ioError
  else
    let i := index.toNat
    match st.file.SetChunk (i / st.rowsPerPage)
        (i % st.rowsPerPage * st.rowSize) row with
    | .error e => .error e
    | .ok pm => .ok { st with file := pm }

/-- `Store.Projection`: resolve each requested column name in the column
map, failing on the first missing one. -/
def Store.Projection (st : Store) :
    List String → Except TableError (List ColumnProjection)
  | [] => .ok []
  | c :: rest =>
      match List.lookup c st.columnMap with
      | none => .error .columnNotFound
      | some cp =>
          match st.Projection rest with
          | .error e => .error e
          | .ok cps => .ok (cp :: cps)

/-- `Row.Project`: slice each projected column out of the row bytes. -/
def rowProject (r : List Nat) (proj : List ColumnProjection) :
    List (List Nat) :=
  proj.map (fun c => (r.drop c.start).take c.size)

/-! ### Table: an indexer paired with a store.

The `LocationIndexer` interface value is embedded as the function
`Location → Except IndexerError Int` its `ToIndex` method denotes. -/

structure Table where
  store : Store
  Indexer : Location → Except IndexerError Int
  Metadata : List (String × String)

/-- `copy(row[start:start+size], src)`: overwrite
`min size (length src)` bytes of the row at `start`. -/
def copyAt (row : List Nat) (start : Nat) (src : List Nat) (size : Nat) :
    List Nat :=
  let n := min size src.length
  row.take start ++ src.take n ++ row.drop (start + n)

/-- The inner `for vInd, c := range columnProj` loop of `Table.SetRows`:
copy each supplied value into its column's slice of the row.  Go panics
when `values[i]` is shorter than the projection; the model reads a missing
value as `[]` (`copy` with an empty source is a no-op) and the theorems do
not depend on that corner. -/
def writeProjected : List Nat → List ColumnProjection → List (List Nat) →
    List Nat
  | row, [], _ => row
  | row, c :: cs, vals =>
      writeProjected (copyAt row c.start (vals.headD []) c.size) cs vals.tail

/-- The body of the `for i, loc := range locations` loop of
`Table.SetRows`: translate the location, read the row, overwrite the
projected columns, write the row back.  Returns the error (if any) and the
table state after the step. -/
def writeOneRow (cp : List ColumnProjection) (t : Table) (loc : Location)
    (vals : List (List Nat)) : Option TableError × Table :=
  match t.Indexer loc with
  | .error e => (some (.indexer e), t)
  | .ok rowInd =>
      match t.store.GetRowAt rowInd with
      | .error e => (some (.pm e), t)
      | .ok (st', rawRow) =>
          match st'.SetRowAt rowInd (writeProjected rawRow cp vals) with
          | .error e => (some (.pm e), { t with store := st' })
          | .ok st'' => (none, { t with store := st'' })

/-- Sequential row writing as the specification describes `SetRows`:
apply `writeOneRow` to each location in order, stopping at the first
error. -/
def writeAll (cp : List ColumnProjection) :
    Table → List Location → List (List (List Nat)) →
    Option TableError × Table
  | t, [], _ => (none, t)
  | t, loc :: locs, vals =>
      match writeOneRow cp t loc (vals.headD []) with
      | (some e, t') => (some e, t')
      | (none, t') => writeAll cp t' locs vals.tail

/-- The `for i, loc := range locations` loop of `Table.SetRows`, with `i`
the running index: each failure returns the current index, success falls
through to the next iteration. -/
def setRowsLoop (cp : List ColumnProjection) (t : Table) (i : Nat) :
    List Location → List (List (List Nat)) → Nat × Option TableError × Table
  | [], _ => (i, none, t)
  | loc :: locs, vals =>
      match t.Indexer loc with
      | .error e => (i, some (.indexer e), t)
      | .ok rowInd =>
          match t.store.GetRowAt rowInd with
          | .error e => (i, some (.pm e), t)
          | .ok (st', rawRow) =>
              match st'.SetRowAt rowInd
                  (writeProjected rawRow cp (vals.headD [])) with
              | .error e => (i, some (.pm e), { t with store := st' })
              | .ok st'' =>
                  setRowsLoop cp { t with store := st'' } (i + 1) locs
                    vals.tail

/-- `Table.SetRows`: resolve the projection, then run the loop from 0; on
success the returned count is `len(locations)`. -/
def Table.SetRows (t : Table) (columns : List String)
    (locations : List Location) (values : List (List (List Nat))) :
    Nat × Option TableError × Table :=
  match t.store.Projection columns with
  | .error e => (0, some e, t)
  | .ok columnProj => setRowsLoop columnProj t 0 locations values

/-- The loop of `Table.GetRows` (errors abort; the model drops cache
effects of an aborted read, which no claim observes). -/
def getRowsLoop (cp : List ColumnProjection) (t : Table) :
    List Location → Except TableError (List (List (List Nat)) × Table)
  | [] => .ok ([], t)
  | loc :: locs =>
      match t.Indexer loc with
      | .error e => .error (.indexer e)
      | .ok rowInd =>
          match t.store.GetRowAt rowInd with
          | .error e => .error (.pm e)
          | .ok (st', rawRow) =>
              match getRowsLoop cp { t with store := st' } locs with
              | .error e => .error e
              | .ok (rows, t') => .ok (rowProject rawRow cp :: rows, t')

/-- `Table.GetRows` (result rows only; the `Columns` part of the result
set carries no claim). -/
def Table.GetRows (t : Table) (projectedColumns : List String)
    (locations : List Location) :
    Except TableError (List (List (List Nat)) × Table) :=
  match t.store.Projection projectedColumns with
  | .error e => .error e
  | .ok cp => getRowsLoop cp t locations

/-- `Table.SetMetadata` (the sidecar save is not modelled and always
succeeds). -/
def Table.SetMetadata (t : Table) (key value : String) : Table :=
  { t with Metadata := assocSet t.Metadata key value }

/-! ### Database: a name → table registry. -/

structure Database where
  tables : List (String × Table)

/-- `Database.Drop` indexes the map and immediately calls `Drop` on the
result; a missing name yields a nil `*Table` and the method call
dereferences it — a panic, modelled as `none`.  On a present table the
store's directory is removed (always succeeds here) and the entry is
deleted. -/
def Database.Drop (d : Database) (name : String) : Option Database :=
  match List.lookup name d.tables with
  | none => none
  | some _ => some ⟨d.tables.eraseP (fun e => e.1 == name)⟩

def Database.GetColumns (d : Database) (name : String) :
    Except TableError (List Column) :=
  match List.lookup name d.tables with
  | none => .error .tableNotFound
  | some t => .ok t.store.ColumnSet

def Database.GetRows (d : Database) (name : String) (columns : List String)
    (locations : List Location) :
    Except TableError (List (List (List Nat))) :=
  match List.lookup name d.tables with
  | none => .error .tableNotFound
  | some t =>
      match t.GetRows columns locations with
      | .error e => .error e
      | .ok (rows, _) => .ok rows

def Database.SetRows (d : Database) (name : String) (columns : List String)
    (locations : List Location) (values : List (List (List Nat))) :
    Nat × Option TableError × Database :=
  match List.lookup name d.tables with
  | none => (0, some .tableNotFound, d)
  | some t =>
      let r := t.SetRows columns locations values
      (r.1, r.2.1, ⟨assocSet d.tables name r.2.2⟩)

def Database.GetMetadata (d : Database) (name key : String) :
    Except TableError String :=
  match List.lookup name d.tables with
  | none => .error .tableNotFound
  | some t =>
      match List.lookup key t.Metadata with
      | none => .ok ""
      | some v => .ok v

def Database.SetMetadata (d : Database) (name key value : String) :
    Except TableError Database :=
  match List.lookup name d.tables with
  | none => .error .tableNotFound
  | some t => .ok ⟨assocSet d.tables name (t.SetMetadata key value)⟩

/-- A concrete single-column table over an initialized one-page store,
used to witness the `SetRows` theorem. -/
def tableWitness : Table :=
  ⟨⟨[Column.mk "col1" .int16 [0, 0]], 4,
    ⟨MaxPagesInCache, 8, [],
      fun i => if i = 0 then
          some (beBytes32 (crc32 (List.replicate 8 0)) ++ List.replicate 8 0)
        else none⟩,
    initColumnMap [Column.mk "col1" .int16 [0, 0]], 2, 4⟩,
   (ProjectionlessIndexer.mk 4 1 true).ToIndex, []⟩

/-- Whether page slots 0 and 1 of a created store's data file are
initialized (used to state concrete page-count facts without binders). -/
def diskSupportPair (o : Option Store) : Option (Bool × Bool) :=
  o.map (fun st => ((st.file.disk 0).isSome, (st.file.disk 1).isSome))

/-- A stand-in for `RectangularLocation.ToSpherical` in concrete
indexer instances. -/
def toSphExample : ℚ → ℚ → ℚ → ℚ × ℚ := fun x y _ => (x, y)

theorem crcStep_lt {c : Nat} (h : c < 2 ^ 32) : crcStep c < 2 ^ 32 := by
  unfold crcStep
  have hhalf : c / 2 < 2 ^ 32 := by omega
  split
  · exact Nat.xor_lt_two_pow hhalf (by norm_num [crcPoly])
  · exact hhalf

theorem xor_xor_cancel (a b : Nat) : a ^^^ b ^^^ b = a := by
  rw [Nat.xor_assoc, Nat.xor_self, Nat.xor_zero]

theorem crcStepInv_crcStep {c : Nat} (h : c < 2 ^ 32) :
    crcStepInv (crcStep c) = c := by
  have hhalf : c / 2 < 2 ^ 31 := by omega
  have hbit : (c / 2).testBit 31 = false :=
    Nat.testBit_lt_two_pow hhalf
  by_cases hodd : c % 2 = 1
  · have hstep : crcStep c = (c / 2) ^^^ crcPoly := by
      unfold crcStep; rw [if_pos hodd]
    have hx : ((c / 2) ^^^ crcPoly).testBit 31 = true := by
      simp [Nat.testBit_xor, hbit]
      decide
    rw [hstep]
    unfold crcStepInv
    rw [if_pos hx, xor_xor_cancel]
    omega
  · have hstep : crcStep c = c / 2 := by
      unfold crcStep; rw [if_neg hodd]
    rw [hstep]
    unfold crcStepInv
    rw [if_neg (by simp [hbit])]
    omega

theorem crcStep_inj {c₁ c₂ : Nat} (h₁ : c₁ < 2 ^ 32) (h₂ : c₂ < 2 ^ 32)
    (h : crcStep c₁ = crcStep c₂) : c₁ = c₂ := by
  have := congrArg crcStepInv h
  rwa [crcStepInv_crcStep h₁, crcStepInv_crcStep h₂] at this

theorem crcStep_iter_lt {c : Nat} (h : c < 2 ^ 32) (n : Nat) :
    crcStep^[n] c < 2 ^ 32 := by
  induction n generalizing c with
  | zero => simpa using h
  | succ k ih =>
      rw [Function.iterate_succ_apply]
      exact ih (crcStep_lt h)

theorem crcStep_iter_inj {c₁ c₂ : Nat} (n : Nat) (h₁ : c₁ < 2 ^ 32)
    (h₂ : c₂ < 2 ^ 32) (h : crcStep^[n] c₁ = crcStep^[n] c₂) : c₁ = c₂ := by
  induction n generalizing c₁ c₂ with
  | zero => simpa using h
  | succ k ih =>
      rw [Function.iterate_succ_apply, Function.iterate_succ_apply] at h
      exact crcStep_inj h₁ h₂ (ih (crcStep_lt h₁) (crcStep_lt h₂) h)

theorem crcByte_lt {c b : Nat} (hc : c < 2 ^ 32) (hb : b < 2 ^ 32) :
    crcByte c b < 2 ^ 32 :=
  crcStep_iter_lt (Nat.xor_lt_two_pow hc hb) 8

theorem crcByte_inj_state {c₁ c₂ b : Nat} (h₁ : c₁ < 2 ^ 32)
    (h₂ : c₂ < 2 ^ 32) (hb : b < 2 ^ 32)
    (h : crcByte c₁ b = crcByte c₂ b) : c₁ = c₂ := by
  have hx := crcStep_iter_inj 8 (Nat.xor_lt_two_pow h₁ hb)
    (Nat.xor_lt_two_pow h₂ hb) h
  have := congrArg (· ^^^ b) hx
  simpa [xor_xor_cancel] using this

theorem crcByte_inj_byte {c b₁ b₂ : Nat} (hc : c < 2 ^ 32)
    (hb₁ : b₁ < 2 ^ 32) (hb₂ : b₂ < 2 ^ 32)
    (h : crcByte c b₁ = crcByte c b₂) : b₁ = b₂ := by
  have hx := crcStep_iter_inj 8 (Nat.xor_lt_two_pow hc hb₁)
    (Nat.xor_lt_two_pow hc hb₂) h
  have := congrArg (fun t => c ^^^ t) hx
  simpa [← Nat.xor_assoc, Nat.xor_self, Nat.zero_xor] using this

theorem crcFold_lt {l : List Nat} {c : Nat} (hc : c < 2 ^ 32)
    (hl : ∀ b ∈ l, b < 2 ^ 32) : l.foldl crcByte c < 2 ^ 32 := by
  induction l generalizing c with
  | nil => simpa using hc
  | cons b t ih =>
      simp only [List.foldl_cons]
      exact ih (crcByte_lt hc (hl b (by simp))) (fun x hx => hl x (by simp [hx]))

theorem crcFold_inj {l : List Nat} {c₁ c₂ : Nat} (h₁ : c₁ < 2 ^ 32)
    (h₂ : c₂ < 2 ^ 32) (hl : ∀ b ∈ l, b < 2 ^ 32)
    (h : l.foldl crcByte c₁ = l.foldl crcByte c₂) : c₁ = c₂ := by
  induction l generalizing c₁ c₂ with
  | nil => simpa using h
  | cons b t ih =>
      simp only [List.foldl_cons] at h
      have hb : b < 2 ^ 32 := hl b (by simp)
      exact crcByte_inj_state h₁ h₂ hb
        (ih (crcByte_lt h₁ hb) (crcByte_lt h₂ hb)
          (fun x hx => hl x (by simp [hx])) h)

/-- Changing a single byte of a byte sequence always changes its CRC-32
checksum (the generator polynomial has degree 32 > 8, so every single-byte
error is detected; here proved by running the bit-level algorithm). -/
theorem crc32_ne_of_set {l : List Nat} {i b : Nat}
    (hl : ∀ x ∈ l, x < 256) (hi : i < l.length) (hb : b < 256)
    (hne : b ≠ l[i]) : crc32 (l.set i b) ≠ crc32 l := by
  have hmem : l[i] ∈ l := List.getElem_mem hi
  have hsplit : l = l.take i ++ l[i] :: l.drop (i + 1) := by
    conv_lhs => rw [← List.take_append_drop i l]
    congr 1
    exact List.drop_eq_getElem_cons hi
  have hset : l.set i b = l.take i ++ b :: l.drop (i + 1) := by
    conv_lhs => rw [hsplit]
    rw [List.set_append]
    simp only [List.length_take, Nat.min_eq_left (Nat.le_of_lt hi), lt_irrefl,
      if_false, Nat.sub_self, List.set_cons_zero]
  intro hcrc
  unfold crc32 at hcrc
  have hcrc' : (l.set i b).foldl crcByte 0xFFFFFFFF
      = l.foldl crcByte 0xFFFFFFFF := by
    have := congrArg (· ^^^ 0xFFFFFFFF) hcrc
    simpa [xor_xor_cancel] using this
  rw [hset] at hcrc'
  conv_rhs at hcrc' => rw [hsplit]
  rw [List.foldl_append, List.foldl_append] at hcrc'
  set s := (l.take i).foldl crcByte 0xFFFFFFFF with hs
  have hsb : s < 2 ^ 32 := by
    refine crcFold_lt (by norm_num) (fun x hx => ?_)
    have : x < 256 := hl x (List.mem_of_mem_take hx)
    omega
  have hdropb : ∀ x ∈ l.drop (i + 1), x < 2 ^ 32 := by
    intro x hx
    have : x < 256 := hl x (List.mem_of_mem_drop hx)
    omega
  simp only [List.foldl_cons] at hcrc'
  have hgi : l[i] < 256 := hl _ hmem
  have hstep : crcByte s b = crcByte s l[i] := by
    refine crcFold_inj (crcByte_lt hsb (by omega)) ?_ hdropb hcrc'
    exact crcByte_lt hsb (by omega)
  exact hne (crcByte_inj_byte hsb (by omega) (by omega) hstep)

theorem beUint16_beBytes16 {n : Nat} (h : n < 2 ^ 16) :
    beUint16 (beBytes16 n) = n := by
  simp only [beBytes16, beUint16]
  omega

theorem beUint32_beBytes32 {n : Nat} (h : n < 2 ^ 32) :
    beUint32 (beBytes32 n) = n := by
  simp only [beBytes32, beUint32]
  omega

theorem beUint64_beBytes64 {n : Nat} (h : n < 2 ^ 64) :
    beUint64 (beBytes64 n) = n := by
  simp only [beBytes64, beUint64]
  omega

theorem twosComp_lt (w : Nat) (v : Int) : twosComp w v < 2 ^ w := by
  unfold twosComp
  have hpos : (0 : Int) < 2 ^ w := by positivity
  have h1 := Int.emod_nonneg v (ne_of_gt hpos)
  have h2 := Int.emod_lt_of_pos v hpos
  have hcast : ((2 ^ w : Nat) : Int) = (2 : Int) ^ w := by push_cast; ring
  omega

theorem fromTwosComp_twosComp {w : Nat} (hw : 1 ≤ w) {v : Int}
    (h1 : -((2 : Int) ^ (w - 1)) ≤ v) (h2 : v < (2 : Int) ^ (w - 1)) :
    fromTwosComp w (twosComp w v) = v := by
  unfold twosComp fromTwosComp
  have hpos : (0 : Int) < 2 ^ w := by positivity
  have hposh : (0 : Int) < 2 ^ (w - 1) := by positivity
  have hsplit : (2 : Int) ^ w = 2 ^ (w - 1) * 2 := by
    rw [← pow_succ]
    congr 1
    omega
  have hcast1 : ((2 ^ (w - 1) : Nat) : Int) = (2 : Int) ^ (w - 1) := by
    push_cast; ring
  have hcast2 : ((2 ^ w : Nat) : Int) = (2 : Int) ^ w := by push_cast; ring
  have hmod : v % (2 : Int) ^ w = v ∨ v % (2 : Int) ^ w = v + 2 ^ w := by
    rcases le_or_lt 0 v with hv | hv
    · left
      exact Int.emod_eq_of_lt hv (by omega)
    · right
      have heq : v % (2 : Int) ^ w = (v + 2 ^ w * 1) % (2 : Int) ^ w := by
        rw [Int.add_mul_emod_self_left]
      rw [heq, mul_one]
      exact Int.emod_eq_of_lt (by omega) (by omega)
  rcases hmod with hm | hm <;> rw [hm] <;> split_ifs <;> omega

/-- C5: for every kind in {int8, uint8, int16, uint16, int32, uint32,
int64, uint64, float32, float64} and every value of its native numeric
type, decoding the encoding round-trips bit-exactly (floats compared by
bit pattern, so NaN payloads are preserved). -/
theorem value_roundtrip_all_kinds :
    (∀ v : Int, -128 ≤ v → v < 128 → (NewInt8Value v).AsInt8 = v) ∧
    (∀ v : Nat, v < 256 → (NewUint8Value v).AsUint8 = v) ∧
    (∀ v : Int, -32768 ≤ v → v < 32768 → (NewInt16Value v).AsInt16 = v) ∧
    (∀ v : Nat, v < 65536 → (NewUint16Value v).AsUint16 = v) ∧
    (∀ v : Int, -2147483648 ≤ v → v < 2147483648 →
      (NewInt32Value v).AsInt32 = v) ∧
    (∀ v : Nat, v < 4294967296 → (NewUint32Value v).AsUint32 = v) ∧
    (∀ v : Int, -9223372036854775808 ≤ v → v < 9223372036854775808 →
      (NewInt64Value v).AsInt64 = v) ∧
    (∀ v : Nat, v < 18446744073709551616 → (NewUint64Value v).AsUint64 = v) ∧
    (∀ bits : Nat, bits < 4294967296 →
      (NewFloat32Value bits).AsFloat32Bits = bits) ∧
    (∀ bits : Nat, bits < 18446744073709551616 →
      (NewFloat64Value bits).AsFloat64Bits = bits) := by
  refine ⟨?_, ?_, ?_, ?_, ?_, ?_, ?_, ?_, ?_, ?_⟩
  · intro v h1 h2
    show fromTwosComp 8 ([twosComp 8 v].headD 0) = v
    rw [List.headD_cons]
    exact fromTwosComp_twosComp (by norm_num) (by norm_num [h1]) (by norm_num [h2])
  · intro v h
    show ([v % 256] : List Nat).headD 0 = v
    rw [List.headD_cons]
    omega
  · intro v h1 h2
    show fromTwosComp 16 (beUint16 (beBytes16 (twosComp 16 v))) = v
    rw [beUint16_beBytes16 (twosComp_lt 16 v)]
    exact fromTwosComp_twosComp (by norm_num) (by norm_num [h1]) (by norm_num [h2])
  · intro v h
    exact beUint16_beBytes16 h
  · intro v h1 h2
    show fromTwosComp 32 (beUint32 (beBytes32 (twosComp 32 v))) = v
    rw [beUint32_beBytes32 (twosComp_lt 32 v)]
    exact fromTwosComp_twosComp (by norm_num) (by norm_num [h1]) (by norm_num [h2])
  · intro v h
    exact beUint32_beBytes32 h
  · intro v h1 h2
    show fromTwosComp 64 (beUint64 (beBytes64 (twosComp 64 v))) = v
    rw [beUint64_beBytes64 (twosComp_lt 64 v)]
    exact fromTwosComp_twosComp (by norm_num) (by norm_num [h1]) (by norm_num [h2])
  · intro v h
    exact beUint64_beBytes64 h
  · intro bits h
    exact beUint32_beBytes32 h
  · intro bits h
    exact beUint64_beBytes64 h

/-- Witness for C5 at concrete inputs of each kind. -/
theorem value_roundtrip_all_kinds_witness :
    (NewInt8Value (-5)).AsInt8 = -5 ∧
    (NewUint8Value 200).AsUint8 = 200 ∧
    (NewInt16Value (-12345)).AsInt16 = -12345 ∧
    (NewUint16Value 54321).AsUint16 = 54321 ∧
    (NewInt32Value (-2000000000)).AsInt32 = -2000000000 ∧
    (NewUint32Value 4000000000).AsUint32 = 4000000000 ∧
    (NewInt64Value (-9000000000000000000)).AsInt64 = -9000000000000000000 ∧
    (NewUint64Value 18000000000000000000).AsUint64 = 18000000000000000000 ∧
    (NewFloat32Value 0x7FC00001).AsFloat32Bits = 0x7FC00001 ∧
    (NewFloat64Value 0x7FF8000000000001).AsFloat64Bits = 0x7FF8000000000001 :=
  ⟨value_roundtrip_all_kinds.1 (-5) (by norm_num) (by norm_num),
   value_roundtrip_all_kinds.2.1 200 (by norm_num),
   value_roundtrip_all_kinds.2.2.1 (-12345) (by norm_num) (by norm_num),
   value_roundtrip_all_kinds.2.2.2.1 54321 (by norm_num),
   value_roundtrip_all_kinds.2.2.2.2.1 (-2000000000) (by norm_num) (by norm_num),
   value_roundtrip_all_kinds.2.2.2.2.2.1 4000000000 (by norm_num),
   value_roundtrip_all_kinds.2.2.2.2.2.2.1 (-9000000000000000000)
     (by norm_num) (by norm_num),
   value_roundtrip_all_kinds.2.2.2.2.2.2.2.1 18000000000000000000 (by norm_num),
   value_roundtrip_all_kinds.2.2.2.2.2.2.2.2.1 0x7FC00001 (by norm_num),
   value_roundtrip_all_kinds.2.2.2.2.2.2.2.2.2 0x7FF8000000000001 (by norm_num)⟩

theorem crc32_lt {l : List Nat} (hl : ∀ x ∈ l, x < 256) : crc32 l < 2 ^ 32 := by
  unfold crc32
  refine Nat.xor_lt_two_pow ?_ (by norm_num)
  exact crcFold_lt (by norm_num) (fun x hx => by have := hl x hx; omega)

theorem beUint32_of_append (n : Nat) (t : List Nat) :
    beUint32 (beBytes32 n ++ t) = beUint32 (beBytes32 n) := by
  simp [beBytes32, beUint32]

/-- C1 behavior at a failing input: with page 0 cached as `[7]` (dirty),
`FlushPage 0` writes the payload with a freshly computed CRC-32 over the
stale on-disk record, but leaves the cached entry's dirty flag `true`
instead of clearing it. -/
theorem flushPage_writes_but_leaves_dirty :
    ((Pagemaster.mk MaxPagesInCache 1 [(0, ⟨[7], true⟩)]
        (fun _ => some [9, 9, 9, 9, 9])).FlushPage 0).disk 0
      = some (beBytes32 (crc32 [7]) ++ [7]) ∧
    List.lookup 0 ((Pagemaster.mk MaxPagesInCache 1 [(0, ⟨[7], true⟩)]
        (fun _ => some [9, 9, 9, 9, 9])).FlushPage 0).cache
      = some ⟨[7], true⟩ := by
  constructor
  · rfl
  · rfl

set_option maxRecDepth 40000 in
/-- C2 behavior at a failing input: loading `MaxPagesInCache + 1 = 65`
distinct pages into a fresh Pagemaster leaves 65 entries in the cache,
because `loadPage` evicts only when `len(cache) > maxCache`. -/
theorem loadPage_cache_exceeds_max :
    (((List.range (MaxPagesInCache + 1)).foldl
        (fun s i =>
          match s.LoadPageM i with
          | .ok (s', _) => s'
          | .error _ => s)
        (Pagemaster.mk MaxPagesInCache 1 []
          (fun _ => some (beBytes32 (crc32 [0]) ++ [0])))).cache.length)
      = MaxPagesInCache + 1 := by
  decide

/-- C4: an uncached `GetPage` (which reads the page from disk) fails with
the corrupted-page error exactly when the stored big-endian 4-byte
checksum differs from the CRC-32/IEEE checksum recomputed over the payload
bytes; and flipping any single payload byte of a validly stored page makes
the next uncached `GetPage` of that page fail with the corrupted-page
error. -/
theorem getPage_corrupted_iff_checksum :
    (∀ (s : Pagemaster) (p : Nat) (record : List Nat),
        List.lookup p s.cache = none →
        s.disk p = some record →
        record.length = s.pageSize + ChecksumSize →
        (s.GetPageM p = .error .corruptedPage ↔
          beUint32 record ≠ crc32 (record.drop ChecksumSize))) ∧
    (∀ (s : Pagemaster) (p : Nat) (payload : List Nat) (j b : Nat)
        (hj : j < payload.length),
        List.lookup p s.cache = none →
        payload.length = s.pageSize →
        (∀ x ∈ payload, x < 256) →
        b < 256 → b ≠ payload[j] →
        (diskOverride s p
            (beBytes32 (crc32 payload) ++ payload.set j b)).GetPageM p
          = .error .corruptedPage) := by
  have main : ∀ (s : Pagemaster) (p : Nat) (record : List Nat),
      List.lookup p s.cache = none →
      s.disk p = some record →
      record.length = s.pageSize + ChecksumSize →
      (s.GetPageM p = .error .corruptedPage ↔
        beUint32 record ≠ crc32 (record.drop ChecksumSize)) := by
    intro s p record hcache hdisk hlen
    unfold Pagemaster.GetPageM Pagemaster.getPage Pagemaster.loadPage
      Pagemaster.readPage
    rw [hcache, hdisk]
    simp only [hlen, ne_eq, not_true_eq_false, if_false, ite_not]
    by_cases heq : beUint32 record = crc32 (record.drop ChecksumSize)
    · simp [heq]
    · simp [heq]
  refine ⟨main, ?_⟩
  intro s p payload j b hj hcache hlen hbytes hb hne
  set record : List Nat := beBytes32 (crc32 payload) ++ payload.set j b with hrec
  have hcrc := crc32_lt hbytes
  have hrlen : record.length = s.pageSize + ChecksumSize := by
    rw [hrec]
    simp [beBytes32, List.length_set, ChecksumSize, ← hlen]
  have hdisk : (diskOverride s p record).disk p = some record := by
    simp [diskOverride]
  have hiff := main (diskOverride s p record) p record hcache hdisk hrlen
  rw [hiff]
  have hsaved : beUint32 record = crc32 payload := by
    rw [hrec, beUint32_of_append, beUint32_beBytes32 hcrc]
  have hdrop : record.drop ChecksumSize = payload.set j b := by
    rw [hrec]
    have : (beBytes32 (crc32 payload)).length = ChecksumSize := by
      simp [beBytes32, ChecksumSize]
    rw [← this, List.drop_left]
  rw [hsaved, hdrop]
  exact fun h => (crc32_ne_of_set hbytes hj hb hne) h.symm

/-- Witness for C4: a record whose stored checksum is wrong is rejected,
and flipping the single payload byte of a validly stored one-byte page
makes the next uncached read fail. -/
theorem getPage_corrupted_iff_checksum_witness :
    (Pagemaster.mk MaxPagesInCache 1 []
        (fun q => if q = 0 then some [0, 0, 0, 0, 9] else none)).GetPageM 0
      = .error .corruptedPage ∧
    (diskOverride (Pagemaster.mk MaxPagesInCache 1 [] (fun _ => none)) 0
        (beBytes32 (crc32 [7]) ++ ([7] : List Nat).set 0 8)).GetPageM 0
      = .error .corruptedPage := by
  constructor
  · exact (getPage_corrupted_iff_checksum.1
      (Pagemaster.mk MaxPagesInCache 1 []
        (fun q => if q = 0 then some [0, 0, 0, 0, 9] else none))
      0 [0, 0, 0, 0, 9] rfl rfl (by decide)).mpr (by decide)
  · exact getPage_corrupted_iff_checksum.2
      (Pagemaster.mk MaxPagesInCache 1 [] (fun _ => none))
      0 [7] 0 8 (by decide) rfl rfl (by decide) (by decide) (by decide)

/-- C9: `ColumnType.EncodeValue` on `ColumnTypeUint8` allocates a 1-byte
buffer but writes to index 1, so it panics (index out of range) for every
uint8 input; consequently `NewColumnUnencoded` and `Column.EncodeValue`
with `ColumnTypeUint8` never return a value, while the direct constructors
`NewColumnUint8` and `NewUint8Value` encode correctly. -/
theorem encodeValue_uint8_panics :
    (∀ v : Nat, ColumnType.uint8.EncodeValue (.u8 v) = none) ∧
    (∀ (name : String) (v : Nat),
      NewColumnUnencoded name .uint8 (.u8 v) = none) ∧
    (∀ (c : Column) (v : Nat), c.type = .uint8 →
      c.EncodeValue (.u8 v) = none) ∧
    (∀ (name : String) (v : Nat),
      NewColumnUint8 name v = some ⟨name, .uint8, [v]⟩) ∧
    (∀ v : Nat, v < 256 → NewUint8Value v = [v]) := by
  refine ⟨fun v => rfl, fun name v => rfl, ?_, fun name v => rfl, ?_⟩
  · intro c v h
    unfold Column.EncodeValue
    rw [h]
    rfl
  · intro v h
    unfold NewUint8Value
    rw [Nat.mod_eq_of_lt h]

/-- Witness for C9 at a concrete column and value. -/
theorem encodeValue_uint8_panics_witness :
    ColumnType.uint8.EncodeValue (.u8 7) = none ∧
    NewColumnUnencoded "c" .uint8 (.u8 7) = none ∧
    (Column.mk "c" .uint8 [0]).EncodeValue (.u8 7) = none ∧
    NewColumnUint8 "c" 7 = some ⟨"c", .uint8, [7]⟩ ∧
    NewUint8Value 7 = [7] :=
  ⟨encodeValue_uint8_panics.1 7,
   encodeValue_uint8_panics.2.1 "c" 7,
   encodeValue_uint8_panics.2.2.1 (Column.mk "c" .uint8 [0]) 7 rfl,
   encodeValue_uint8_panics.2.2.2.1 "c" 7,
   encodeValue_uint8_panics.2.2.2.2 7 (by norm_num)⟩

theorem grid_index_bound {W H x y : Int} (hW : 0 < W) (_hH : 0 < H)
    (hx0 : 0 ≤ x) (hx : x < W) (hy0 : 0 ≤ y) (hy : y < H) :
    0 ≤ y * W + x ∧ y * W + x < W * H := by
  constructor
  · have := mul_nonneg hy0 hW.le
    omega
  · have h1 : y * W ≤ (H - 1) * W :=
      mul_le_mul_of_nonneg_right (by omega) hW.le
    have h2 : (H - 1) * W = H * W - W := by ring
    have h3 : H * W = W * H := mul_comm H W
    omega

theorem grid_index_unique {W : Int} (hW : 0 < W) {x₁ y₁ x₂ y₂ : Int}
    (hx₁0 : 0 ≤ x₁) (hx₁ : x₁ < W) (hx₂0 : 0 ≤ x₂) (hx₂ : x₂ < W)
    (h : y₁ * W + x₁ = y₂ * W + x₂) : x₁ = x₂ ∧ y₁ = y₂ := by
  have hy : y₁ = y₂ := by
    have e₁ : (x₁ + y₁ * W) / W = y₁ := by
      rw [Int.add_mul_ediv_right _ _ (ne_of_gt hW),
        Int.ediv_eq_zero_of_lt hx₁0 hx₁, zero_add]
    have e₂ : (x₂ + y₂ * W) / W = y₂ := by
      rw [Int.add_mul_ediv_right _ _ (ne_of_gt hW),
        Int.ediv_eq_zero_of_lt hx₂0 hx₂, zero_add]
    rw [← e₁, ← e₂]
    congr 1
    omega
  subst hy
  exact ⟨by omega, rfl⟩

theorem grid_index_surj {W H : Int} (hW : 0 < W) (_hH : 0 < H) {i : Int}
    (h0 : 0 ≤ i) (hi : i < W * H) :
    ∃ x y : Int, 0 ≤ x ∧ x < W ∧ 0 ≤ y ∧ y < H ∧ y * W + x = i := by
  refine ⟨i % W, i / W, Int.emod_nonneg i (ne_of_gt hW),
    Int.emod_lt_of_pos i hW, Int.ediv_nonneg h0 hW.le, ?_, ?_⟩
  · exact Int.ediv_lt_of_lt_mul hW (by rw [mul_comm] at hi; exact hi)
  · have hdm := Int.ediv_add_emod i W
    rw [mul_comm]
    omega

/-- C6: for every `ProjectionlessIndexer` with positive width and height,
`ToIndex` on in-range `GridLocation`s never errors, computes `y*W + x`
(row-major) or `x*H + y` (column-major), and is a bijection from the grid
onto `{0 .. W*H - 1}`. -/
theorem projectionless_toIndex_bijective :
    ∀ p : ProjectionlessIndexer, 1 ≤ p.Width → 1 ≤ p.Height →
    (∀ x y : Int, 0 ≤ x → x < p.Width → 0 ≤ y → y < p.Height →
        p.ToIndex (.grid x y)
          = .ok (if p.RowMajor then y * p.Width + x else x * p.Height + y) ∧
        ∃ i : Int, p.ToIndex (.grid x y) = .ok i ∧ 0 ≤ i ∧
          i < p.Width * p.Height) ∧
    (∀ x₁ y₁ x₂ y₂ : Int, 0 ≤ x₁ → x₁ < p.Width → 0 ≤ y₁ → y₁ < p.Height →
        0 ≤ x₂ → x₂ < p.Width → 0 ≤ y₂ → y₂ < p.Height →
        p.ToIndex (.grid x₁ y₁) = p.ToIndex (.grid x₂ y₂) →
        x₁ = x₂ ∧ y₁ = y₂) ∧
    (∀ i : Int, 0 ≤ i → i < p.Width * p.Height →
        ∃ x y : Int, 0 ≤ x ∧ x < p.Width ∧ 0 ≤ y ∧ y < p.Height ∧
          p.ToIndex (.grid x y) = .ok i) := by
  intro p hW hH
  have hW0 : 0 < p.Width := by omega
  have hH0 : 0 < p.Height := by omega
  have heq : ∀ x y : Int, p.ToIndex (.grid x y)
      = .ok (if p.RowMajor then y * p.Width + x else x * p.Height + y) := by
    intro x y
    unfold ProjectionlessIndexer.ToIndex
    by_cases hrm : p.RowMajor <;> simp [hrm]
  refine ⟨?_, ?_, ?_⟩
  · intro x y hx0 hx hy0 hy
    refine ⟨heq x y, ?_⟩
    by_cases hrm : p.RowMajor
    · obtain ⟨hb0, hb⟩ := grid_index_bound hW0 hH0 hx0 hx hy0 hy
      exact ⟨y * p.Width + x, by rw [heq, if_pos hrm], hb0, hb⟩
    · obtain ⟨hb0, hb⟩ := grid_index_bound (W := p.Height) (H := p.Width)
        (x := y) (y := x) hH0 hW0 hy0 hy hx0 hx
      refine ⟨x * p.Height + y, by rw [heq, if_neg hrm], hb0, ?_⟩
      have hc := mul_comm p.Height p.Width
      omega
  · intro x₁ y₁ x₂ y₂ hx₁0 hx₁ hy₁0 hy₁ hx₂0 hx₂ hy₂0 hy₂ h
    rw [heq, heq] at h
    by_cases hrm : p.RowMajor
    · rw [if_pos hrm, if_pos hrm] at h
      exact grid_index_unique hW0 hx₁0 hx₁ hx₂0 hx₂ (Except.ok.inj h)
    · rw [if_neg hrm, if_neg hrm] at h
      obtain ⟨h₁, h₂⟩ :=
        grid_index_unique hH0 hy₁0 hy₁ hy₂0 hy₂ (Except.ok.inj h)
      exact ⟨h₂, h₁⟩
  · intro i h0 hi
    by_cases hrm : p.RowMajor
    · obtain ⟨x, y, hx0, hx, hy0, hy, hval⟩ := grid_index_surj hW0 hH0 h0 hi
      exact ⟨x, y, hx0, hx, hy0, hy, by rw [heq, if_pos hrm, hval]⟩
    · rw [mul_comm] at hi
      obtain ⟨y, x, hy0, hy, hx0, hx, hval⟩ := grid_index_surj hH0 hW0 h0 hi
      exact ⟨x, y, hx0, hx, hy0, hy, by rw [heq, if_neg hrm, hval]⟩

/-- Witness for C6: a 3×2 row-major grid maps (2,1) to 5 and (1,1) to 4,
both without error. -/
theorem projectionless_toIndex_bijective_witness :
    (ProjectionlessIndexer.mk 3 2 true).ToIndex (.grid 2 1) = .ok 5 ∧
    (ProjectionlessIndexer.mk 3 2 true).ToIndex (.grid 1 1) = .ok 4 := by
  constructor
  · have h := ((projectionless_toIndex_bijective ⟨3, 2, true⟩
      (by norm_num) (by norm_num)).1 2 1
      (by norm_num) (by norm_num) (by norm_num) (by norm_num)).1
    rw [h]
    norm_num
  · have h := ((projectionless_toIndex_bijective ⟨3, 2, true⟩
      (by norm_num) (by norm_num)).1 1 1
      (by norm_num) (by norm_num) (by norm_num) (by norm_num)).1
    rw [h]
    norm_num

/-- C7: `MercatorCutoffIndexer.ToIndex` on a `SphericalLocation` yields
`LocationOutOfBoundsError` exactly when the latitude is above the north
cutoff or below the south cutoff; in-range latitudes are never rejected as
out of bounds. -/
theorem mercator_outOfBounds_iff :
    ∀ (m : MercatorCutoffIndexer) (toSph : ℚ → ℚ → ℚ → ℚ × ℚ)
      (lat lon : ℚ), m.SouthCutoff < m.NorthCutoff →
      (m.ToIndex toSph (.spherical lat lon) = .error .locationOutOfBounds ↔
        lat > m.NorthCutoff ∨ lat < m.SouthCutoff) := by
  intro m toSph lat lon hcut
  show m.toIndexSpherical lat lon = .error .locationOutOfBounds ↔ _
  unfold MercatorCutoffIndexer.toIndexSpherical
  by_cases h : lat > m.NorthCutoff ∨ lat < m.SouthCutoff
  · simp [h]
  · rw [if_neg h]
    unfold MercatorCutoffIndexer.toIndexProjected
    unfold ProjectionlessIndexer.ToIndex
    by_cases hrm : m.grid.RowMajor <;> simp [hrm, h]

/-- Witness for C7: latitude 2 (above the north cutoff 1) is rejected as
out of bounds, latitude 0 (inside the cutoffs) is not. -/
theorem mercator_outOfBounds_iff_witness :
    mercatorExample.ToIndex toSphExample (.spherical 2 0)
      = .error .locationOutOfBounds ∧
    ¬ (mercatorExample.ToIndex toSphExample (.spherical 0 0)
      = .error .locationOutOfBounds) := by
  constructor
  · exact (mercator_outOfBounds_iff mercatorExample toSphExample
      2 0 (by norm_num [mercatorExample])).mpr (by norm_num [mercatorExample])
  · intro hc
    have h := (mercator_outOfBounds_iff mercatorExample toSphExample
      0 0 (by norm_num [mercatorExample])).mp hc
    simp only [mercatorExample] at h
    norm_num at h

theorem writePage_disk (s : Pagemaster) (i : Nat) (page : List Nat)
    (j : Nat) : (s.writePage i page).disk j
      = if j = i then
          some (beBytes32 (crc32 (padPage s.pageSize page))
            ++ padPage s.pageSize page)
        else s.disk j := rfl

theorem writePage_pageSize (s : Pagemaster) (i : Nat) (page : List Nat) :
    (s.writePage i page).pageSize = s.pageSize := rfl

/-- `Initialize` on an empty file leaves exactly pages `0 .. pages-1`
present. -/
theorem initialize_disk_isSome (pm : Pagemaster) (page : List Nat)
    (h : ∀ i, pm.disk i = none) (pages : Nat) (i : Nat) :
    ((pm.Initialize pages page).disk i).isSome = true ↔ i < pages := by
  induction pages with
  | zero => simp [Pagemaster.Initialize, h i]
  | succ n ih =>
      unfold Pagemaster.Initialize at ih ⊢
      rw [List.range_succ, List.foldl_append]
      simp only [List.foldl_cons, List.foldl_nil]
      rw [writePage_disk]
      by_cases hin : i = n
      · simp [hin]
      · rw [if_neg hin]
        rw [ih]
        omega

/-- The data-file state produced by `NewStore`: page `i` is initialized
iff `i < rows / rowsPerPage + 1` with `rowsPerPage = pageSize / rowSize`
(integer division throughout). -/
theorem newStore_disk_support (pageSize rows : Nat) (columns : List Column)
    (st : Store) (hst : NewStore pageSize rows columns = some st) (i : Nat) :
    ((st.file.disk i).isSome = true ↔
      i < rows / (pageSize / storeRowSize columns) + 1) := by
  unfold NewStore at hst
  by_cases hc : columns.length < 1
  · rw [if_pos hc] at hst
    exact absurd hst (by simp)
  · rw [if_neg hc] at hst
    have hfile : st.file
        = (Pagemaster.mk MaxPagesInCache pageSize [] (fun _ => none)).Initialize
            (rows / (pageSize / storeRowSize columns) + 1)
            ((List.range (pageSize / storeRowSize columns)).foldl
              (fun p _ => p ++ defaultRowOf columns) []) := by
      cases hst
      rfl
    rw [hfile]
    exact initialize_disk_isSome _ _ (fun _ => rfl) _ i

/-- C3 counterexample: with the standard 4096-byte OS page
(PAGE_PAYLOAD = 4092) and a single uint64 column (row_size = 8,
rows_per_page = 511) and rows = 1, the code initializes
`1/511 + 1 = 1` page — page index 1 is absent — while the claimed formula
`⌈1/511⌉ + 1 = 2` demands two pages. -/
theorem newStore_pages_ceil_counterexample :
    diskSupportPair
      (NewStore 4092 1 [Column.mk "c" .uint64 [0, 0, 0, 0, 0, 0, 0, 0]])
      = some (true, false) ∧
    (1 + (4092 / 8) - 1) / (4092 / 8) + 1 = 2 := by
  constructor
  · cases hst : NewStore 4092 1 [Column.mk "c" .uint64 [0, 0, 0, 0, 0, 0, 0, 0]] with
    | none =>
        exact absurd hst (by unfold NewStore; simp)
    | some st =>
        have h := newStore_disk_support 4092 1
          [Column.mk "c" .uint64 [0, 0, 0, 0, 0, 0, 0, 0]] st hst
        have h0 : (st.file.disk 0).isSome = true := (h 0).mpr (by decide)
        have h1 : (st.file.disk 1).isSome = false := by
          by_cases hb : (st.file.disk 1).isSome = true
          · exact absurd ((h 1).mp hb) (by decide)
          · simpa using hb
        simp [diskSupportPair, h0, h1]
  · norm_num

/-- C3 (amended): for every successful `NewStore(path, rows, columns)`
with `1 ≤ row_size ≤ PAGE_PAYLOAD`, the number of pages initialized in the
data file equals `⌊rows / rows_per_page⌋ + 1` where
`rows_per_page = ⌊PAGE_PAYLOAD / row_size⌋` — which is
`⌈rows / rows_per_page⌉ + 1` exactly when `rows_per_page` divides `rows`,
and `⌈rows / rows_per_page⌉` otherwise. -/
theorem newStore_initializes_floor_plus_one :
    ∀ (pageSize rows : Nat) (columns : List Column) (st : Store),
      1 ≤ storeRowSize columns → storeRowSize columns ≤ pageSize →
      NewStore pageSize rows columns = some st →
      ∀ i : Nat, ((st.file.disk i).isSome = true ↔
        i < rows / (pageSize / storeRowSize columns) + 1) :=
  fun pageSize rows columns st _ _ hst i =>
    newStore_disk_support pageSize rows columns st hst i

/-- Witness for C3 (amended): pageSize 8, one int16 column, 3 rows:
rows_per_page = 4, so exactly `3/4 + 1 = 1` page is initialized. -/
theorem newStore_initializes_floor_plus_one_witness :
    diskSupportPair (NewStore 8 3 [Column.mk "c" .int16 [0, 0]])
      = some (true, false) := by
  cases hst : NewStore 8 3 [Column.mk "c" .int16 [0, 0]] with
  | none => exact absurd hst (by unfold NewStore; simp)
  | some st =>
      have h := newStore_initializes_floor_plus_one 8 3
        [Column.mk "c" .int16 [0, 0]] st (by decide) (by decide) hst
      have h0 : (st.file.disk 0).isSome = true := (h 0).mpr (by decide)
      have h1 : (st.file.disk 1).isSome = false := by
        by_cases hb : (st.file.disk 1).isSome = true
        · exact absurd ((h 1).mp hb) (by decide)
        · simpa using hb
      simp [diskSupportPair, h0, h1]

theorem getD_succ_tail {α : Type} (l : List α) (n : Nat) (d : α) :
    l.getD (n + 1) d = l.tail.getD n d := by
  cases l <;> simp [List.getD]

/-- Characterization of the `SetRows` loop: a `none` result means every
location was processed (count = start + length, state = all writes
applied); a `some e` result means the first `k` writes succeeded (count =
start + k, state as after those writes) and write `k` fails with `e`. -/
theorem setRowsLoop_spec (cp : List ColumnProjection) :
    ∀ (locs : List Location) (vals : List (List (List Nat))) (t : Table)
      (i : Nat),
      (∀ n t', setRowsLoop cp t i locs vals = (n, none, t') →
        n = i + locs.length ∧ writeAll cp t locs vals = (none, t')) ∧
      (∀ n e t', setRowsLoop cp t i locs vals = (n, some e, t') →
        ∃ k tmid, n = i + k ∧ k < locs.length ∧
          writeAll cp t (locs.take k) vals = (none, tmid) ∧
          writeOneRow cp tmid (locs.getD k (.index 0)) (vals.getD k [])
            = (some e, t')) := by
  intro locs
  induction locs with
  | nil =>
      intro vals t i
      constructor
      · intro n t' h
        simp only [setRowsLoop, Prod.mk.injEq] at h
        obtain ⟨h1, _, h3⟩ := h
        subst h3
        subst h1
        exact ⟨by simp, rfl⟩
      · intro n e t' h
        simp only [setRowsLoop, Prod.mk.injEq] at h
        exact absurd h.2.1 (by simp)
  | cons loc locs ih =>
      intro vals t i
      have hgetD0 : vals.getD 0 [] = vals.headD [] := by
        cases vals <;> simp [List.getD]
      constructor
      · intro n t' h
        cases hidx : t.Indexer loc with
        | error e0 =>
            simp only [setRowsLoop, hidx, Prod.mk.injEq] at h
            exact absurd h.2.1 (by simp)
        | ok rowInd =>
            cases hget : t.store.GetRowAt rowInd with
            | error e0 =>
                simp only [setRowsLoop, hidx, hget, Prod.mk.injEq] at h
                exact absurd h.2.1 (by simp)
            | ok pr =>
                obtain ⟨st', rawRow⟩ := pr
                cases hset : st'.SetRowAt rowInd
                    (writeProjected rawRow cp (vals.headD [])) with
                | error e0 =>
                    simp only [setRowsLoop, hidx, hget, hset,
                      Prod.mk.injEq] at h
                    exact absurd h.2.1 (by simp)
                | ok st'' =>
                    simp only [setRowsLoop, hidx, hget, hset] at h
                    obtain ⟨hn, hw⟩ :=
                      (ih vals.tail { t with store := st'' } (i + 1)).1
                        n t' h
                    constructor
                    · simp only [List.length_cons]
                      omega
                    · simp only [writeAll, writeOneRow, hidx, hget, hset]
                      exact hw
      · intro n e t' h
        cases hidx : t.Indexer loc with
        | error e0 =>
            simp only [setRowsLoop, hidx, Prod.mk.injEq] at h
            obtain ⟨h1, h2, h3⟩ := h
            injection h2 with h2
            subst h1
            subst h3
            refine ⟨0, t, by omega, by simp, rfl, ?_⟩
            simp only [List.getD_cons_zero, writeOneRow, hidx, ← h2]
        | ok rowInd =>
            cases hget : t.store.GetRowAt rowInd with
            | error e0 =>
                simp only [setRowsLoop, hidx, hget, Prod.mk.injEq] at h
                obtain ⟨h1, h2, h3⟩ := h
                injection h2 with h2
                subst h1
                subst h3
                refine ⟨0, t, by omega, by simp, rfl, ?_⟩
                simp only [List.getD_cons_zero, writeOneRow, hidx, hget,
                  ← h2]
            | ok pr =>
                obtain ⟨st', rawRow⟩ := pr
                cases hset : st'.SetRowAt rowInd
                    (writeProjected rawRow cp (vals.headD [])) with
                | error e0 =>
                    simp only [setRowsLoop, hidx, hget, hset,
                      Prod.mk.injEq] at h
                    obtain ⟨h1, h2, h3⟩ := h
                    injection h2 with h2
                    subst h1
                    refine ⟨0, t, by omega, by simp, rfl, ?_⟩
                    rw [List.getD_cons_zero]
                    simp only [writeOneRow, hidx, hget, hset, hgetD0,
                      ← h2, ← h3]
                | ok st'' =>
                    simp only [setRowsLoop, hidx, hget, hset] at h
                    obtain ⟨k, tmid, hk, hklt, hwa, hwo⟩ :=
                      (ih vals.tail { t with store := st'' } (i + 1)).2
                        n e t' h
                    refine ⟨k + 1, tmid, by omega, ?_, ?_, ?_⟩
                    · simp only [List.length_cons]
                      omega
                    · simp only [List.take_succ_cons, writeAll,
                        writeOneRow, hidx, hget, hset]
                      exact hwa
                    · rw [List.getD_cons_succ, getD_succ_tail]
                      exact hwo

/-- C8: for every `Table.SetRows(columns, locations, values)` call on a
valid projection, a success returns `len(locations)` with all rows
written in order; a failure at location index `i` returns the count `i` of
rows fully written before it, the state reflects exactly the writes of
rows `0..i-1`, and the `i`-th write (indexer translation, row read, or row
write) fails on that state. -/
theorem setRows_returns_prefix_count :
    ∀ (t : Table) (columns : List String) (locations : List Location)
      (values : List (List (List Nat))) (cp : List ColumnProjection),
      t.store.Projection columns = .ok cp →
      ((∀ n t', t.SetRows columns locations values = (n, none, t') →
          n = locations.length ∧
          writeAll cp t locations values = (none, t')) ∧
       (∀ n e t', t.SetRows columns locations values = (n, some e, t') →
          n < locations.length ∧ ∃ tmid,
            writeAll cp t (locations.take n) values = (none, tmid) ∧
            writeOneRow cp tmid (locations.getD n (.index 0))
              (values.getD n []) = (some e, t'))) := by
  intro t columns locations values cp hcp
  constructor
  · intro n t' hr
    unfold Table.SetRows at hr
    simp only [hcp] at hr
    obtain ⟨hn, hw⟩ := (setRowsLoop_spec cp locations values t 0).1 n t' hr
    exact ⟨by omega, hw⟩
  · intro n e t' hr
    unfold Table.SetRows at hr
    simp only [hcp] at hr
    obtain ⟨k, tmid, hk, hklt, hwa, hwo⟩ :=
      (setRowsLoop_spec cp locations values t 0).2 n e t' hr
    have hnk : n = k := by omega
    subst hnk
    exact ⟨by omega, tmid, hwa, hwo⟩

set_option maxRecDepth 40000 in
/-- Witness for C8: writing two rows of a concrete table succeeds and
returns count 2. -/
theorem setRows_returns_prefix_count_witness :
    (tableWitness.SetRows ["col1"] [.grid 0 0, .grid 1 0]
      [[[0, 5]], [[0, 6]]]).1 = 2 := by
  rcases hres : tableWitness.SetRows ["col1"] [.grid 0 0, .grid 1 0]
      [[[0, 5]], [[0, 6]]] with ⟨n, err, t'⟩
  cases err with
  | none =>
      have h := (setRows_returns_prefix_count tableWitness ["col1"]
        [.grid 0 0, .grid 1 0] [[[0, 5]], [[0, 6]]] [⟨0, 0, 2⟩] rfl).1
        n t' hres
      simpa using h.1
  | some e =>
      have hnone : (tableWitness.SetRows ["col1"] [.grid 0 0, .grid 1 0]
          [[[0, 5]], [[0, 6]]]).2.1 = none := by decide
      rw [hres] at hnone
      simp at hnone

/-- C10: for every table name missing from the database's map,
`Database.Drop` dereferences a nil `*Table` and panics (modelled `none`),
while `GetColumns`, `GetRows`, `SetRows`, `GetMetadata` and `SetMetadata`
all return `TableNotFoundError`. -/
theorem drop_panics_on_missing_table :
    ∀ (d : Database) (name key value : String) (columns : List String)
      (locations : List Location) (values : List (List (List Nat))),
      List.lookup name d.tables = none →
      d.Drop name = none ∧
      d.GetColumns name = .error .tableNotFound ∧
      d.GetRows name columns locations = .error .tableNotFound ∧
      d.SetRows name columns locations values = (0, some .tableNotFound, d) ∧
      d.GetMetadata name key = .error .tableNotFound ∧
      d.SetMetadata name key value = .error .tableNotFound := by
  intro d name key value columns locations values h
  unfold Database.Drop Database.GetColumns Database.GetRows Database.SetRows
    Database.GetMetadata Database.SetMetadata
  rw [h]
  exact ⟨rfl, rfl, rfl, rfl, rfl, rfl⟩

/-- Witness for C10 on an empty database. -/
theorem drop_panics_on_missing_table_witness :
    (Database.mk []).Drop "t" = none ∧
    (Database.mk []).GetColumns "t" = .error .tableNotFound ∧
    (Database.mk []).GetRows "t" [] [] = .error .tableNotFound ∧
    (Database.mk []).SetRows "t" [] [] []
      = (0, some .tableNotFound, Database.mk []) ∧
    (Database.mk []).GetMetadata "t" "k" = .error .tableNotFound ∧
    (Database.mk []).SetMetadata "t" "k" "v" = .error .tableNotFound :=
  drop_panics_on_missing_table (Database.mk []) "t" "k" "v" [] [] [] rfl

end Pixidb
